import Mathlib

set_option maxHeartbeats 1000000

/-!
Verification development for the combined bounds matcher repository.

The Python sources are embedded shallowly:

* `src/python/base/types.py` gives the data model (`Bounds`, `ComponentMatch`,
  `MatchedEntity`, `BoundsResult`, `MatchStatistics`).
* `src/python/base/pdf_bounds_extractor_base.py` gives the `Src` namespace
  (`find_exact_bounds`, `_normalize_bounds`, `get_page_text`,
  `search_with_context`, `extract_all_text_blocks`).  The documents
  themselves (PyMuPDF pages) are modelled abstractly: a page carries its
  dimensions, its raw text, its literal-search function and its span blocks.
* `src/python/combined_bounds_matcher.py` gives `Src.match_entity` (a TODO
  stub in the source) and `Src.match_all`.
* The multi-strategy matching engine (dispatcher, strategies, result cache)
  is an unimplemented scaffold in the repository — only its declaration,
  TODO comments and tests exist — so it is modelled from the specification
  in the `Spec` namespace; each such definition is marked
  `Modelled from the spec:`.

Python floats are modelled as exact rationals; Python ints as `ℕ`.
A Python `KeyError`/`IndexError` is modelled with `Except`/`Option`.
-/

/-- A raw PyMuPDF-style rectangle in page pixel coordinates
(`fitz.Rect` with corners `(x0, y0)` and `(x1, y1)`). -/
structure Rect where
  x0 : ℚ
  y0 : ℚ
  x1 : ℚ
  y1 : ℚ
  deriving DecidableEq, Repr

/-- One rendered text span together with its raw bounding box
(the `span["text"]` / `span["bbox"]` pair of PyMuPDF's dict output). -/
structure Span where
  text : String
  bbox : Rect
  deriving DecidableEq, Repr

/-- One line of a text block: its span list. -/
structure Line where
  spans : List Span
  deriving DecidableEq, Repr

/-- A text block from `page.get_text("dict")["blocks"]`; a block without a
`"lines"` key (e.g. an image block) is modelled with `lines = none`. -/
structure Block where
  lines : Option (List Line)
  deriving DecidableEq, Repr

/-- A PDF page as the program observes it through PyMuPDF:
`width`/`height` are `page.rect.width`/`page.rect.height`,
`rawText` is `page.get_text()`, `searchFor` is `page.search_for`
(the literal-search collaborator, returning the raw rectangles of the
occurrences of the argument on this page, in reading order), and
`blocks` is `page.get_text("dict")["blocks"]`. -/
structure Page where
  width : ℚ
  height : ℚ
  rawText : String
  searchFor : String → List Rect
  blocks : List Block

/-- A PDF document: its pages in order. -/
structure PDFDoc where
  pages : List Page

/-- From `types.py`, `Bounds`: a bounding box with a page number and
coordinates relative to the page. -/
structure Bounds where
  page : ℕ
  x : ℚ
  y : ℚ
  width : ℚ
  height : ℚ
  deriving DecidableEq, Repr

/-- From `types.py`, `ComponentMatch`. -/
structure ComponentMatch where
  text : String
  bounds : Option Bounds
  deriving DecidableEq, Repr

/-- From `types.py`, `MatchedEntity`. -/
structure MatchedEntity where
  entity_name : String
  entity_type : String
  match_strategy : String
  confidence : ℚ
  bounds : Option Bounds
  component_matches : List ComponentMatch
  deriving DecidableEq, Repr

/-- From `types.py`, `BoundsResult`. -/
structure BoundsResult where
  success : Bool
  bounds : Option Bounds
  confidence : ℚ
  components : List ComponentMatch
  strategy_name : String
  deriving DecidableEq, Repr

/-- From `types.py`, `MatchStatistics`; the `strategies_used` dict is modelled as
an association list in first-insertion order. -/
structure MatchStatistics where
  total_entities : ℕ
  matched : ℕ
  partial_matched : ℕ
  unmatched : ℕ
  strategies_used : List (String × ℕ)
  deriving DecidableEq, Repr

namespace Src

/-- Embeds `PDFBoundsExtractor._normalize_bounds` (pdf_bounds_extractor_base.py
lines 62-84): divides the rectangle by the page dimensions, and stores the
0-indexed `page_num` unchanged — the line the source itself marks
`# BUG: Page numbers should be 1-indexed for output, but we're using 0-indexed`. -/
def normalize_bounds (rect : Rect) (page : Page) (page_num : ℕ) : Bounds :=
  { page := page_num
    x := rect.x0 / page.width
    y := rect.y0 / page.height
    width := (rect.x1 - rect.x0) / page.width
    height := (rect.y1 - rect.y0) / page.height }

/-- The page loop of `find_exact_bounds`: scan pages in order from index
`idx`; on the first page whose `search_for` returns instances, normalize
`instances[0]`. -/
def find_exact_bounds_go (t : String) : List Page → ℕ → Option Bounds
  | [], _ => none
  | p :: rest, idx =>
    match p.searchFor t with
    | r :: _ => some (normalize_bounds r p idx)
    | [] => find_exact_bounds_go t rest (idx + 1)

/-- Embeds `PDFBoundsExtractor.find_exact_bounds` (lines 41-60): search each page
in page order, return the normalized bounds of the first matching rectangle
on the first page containing the text, else `None`. -/
def find_exact_bounds (doc : PDFDoc) (search_text : String) : Option Bounds :=
  find_exact_bounds_go search_text doc.pages 0

/-- The extractor's mutable state: the `_text_cache` dict, plus a log of
the page indices on which the underlying `page.get_text()` extraction
actually ran (so invocations can be counted). -/
structure ExtractorState where
  text_cache : List (ℕ × String)
  extract_log : List ℕ
  deriving DecidableEq, Repr

/-- The state of a freshly constructed extractor: empty cache, no
extractions performed. -/
def initExtractorState : ExtractorState := ⟨[], []⟩

/-- Embeds `PDFBoundsExtractor.get_page_text` (lines 86-100): serve the cached
text when present; otherwise index the document (an out-of-range index —
Python's `IndexError` — is modelled as `none`), run the extraction, cache
and return its result. -/
def get_page_text (doc : PDFDoc) (st : ExtractorState) (page_num : ℕ) :
    Option String × ExtractorState :=
  match st.text_cache.lookup page_num with
  | some t => (some t, st)
  | none =>
    match doc.pages[page_num]? with
    | none => (none, st)
    | some p =>
      (some p.rawText,
        { text_cache := (page_num, p.rawText) :: st.text_cache
          extract_log := page_num :: st.extract_log })

/-- Python `str.strip()`: remove leading and trailing whitespace. -/
def pyStrip (s : String) : String :=
  ⟨((s.data.dropWhile Char.isWhitespace).reverse.dropWhile Char.isWhitespace).reverse⟩

/-- One entry of `extract_all_text_blocks`: `span["text"].strip()`, skipped
when empty, otherwise paired with the bounds built from the raw `bbox` —
the lines the source marks `# BUG: Not normalized!` and
`# BUG: Should be page_num + 1`. -/
def spanEntry (page_num : ℕ) (s : Span) : Option (String × Bounds) :=
  let t := pyStrip s.text
  if t = "" then none
  else
    some (t,
      { page := page_num
        x := s.bbox.x0
        y := s.bbox.y0
        width := s.bbox.x1 - s.bbox.x0
        height := s.bbox.y1 - s.bbox.y0 })

/-- Embeds `PDFBoundsExtractor.extract_all_text_blocks` (lines 140-174): iterate
blocks (skipping those without lines), lines, and spans, keeping every
span with nonempty stripped text. -/
def extract_all_text_blocks (doc : PDFDoc) (page_num : ℕ) :
    Option (List (String × Bounds)) :=
  match doc.pages[page_num]? with
  | none => none
  | some page =>
    some ((((page.blocks.filterMap Block.lines).flatten.flatMap Line.spans)).filterMap
      (spanEntry page_num))

/-- Embeds `CombinedBoundsMatcher.match_entity` (combined_bounds_matcher.py lines
61-91): the source body is a TODO stub that unconditionally returns the
"none" entity. -/
def match_entity (entity_name entity_type : String) : MatchedEntity :=
  { entity_name := entity_name
    entity_type := entity_type
    match_strategy := "none"
    confidence := 0
    bounds := none
    component_matches := [] }

/-- An input entity dict for `match_all`; the required keys `"name"` and
`"type"` may be absent. -/
structure EntityDict where
  name : Option String
  type : Option String
  deriving DecidableEq, Repr

/-- The entity loop of `match_all`: for each entity, `entity["name"]` is
evaluated first, then `entity["type"]`; a missing key raises `KeyError`
(modelled as `.error` carrying the key name), aborting the whole batch.
The per-entity matcher `f` is the dynamically dispatched
`self.match_entity`. -/
def matchLoop (f : String → String → MatchedEntity) :
    List EntityDict → Except String (List MatchedEntity)
  | [] => .ok []
  | e :: es =>
    match e.name with
    | none => .error "name"
    | some n =>
      match e.type with
      | none => .error "type"
      | some t =>
        let r := f n t
        match matchLoop f es with
        | .error k => .error k
        | .ok rs => .ok (r :: rs)

/-- Python's `strategies_used[strategy] = strategies_used.get(strategy, 0) + 1` on
the association-list model of the dict (keys are unique, as in a Python
dict; a fresh key is appended in insertion order). -/
def bump : List (String × ℕ) → String → List (String × ℕ)
  | [], k => [(k, 1)]
  | p :: rest, k =>
    if p.1 = k then (p.1, p.2 + 1) :: rest else p :: bump rest k

/-- The `strategies_used` dict produced by the `match_all` loop: one bump
per result, in result order. -/
def strategiesUsedOf (rs : List MatchedEntity) : List (String × ℕ) :=
  rs.foldl (fun su r => bump su r.match_strategy) []

/-- The Python float literal `0.5` of the statistics buckets, written as an
explicit rational so that evaluation on concrete inputs stays
kernel-reducible. -/
def oneHalf : ℚ := ⟨1, 2, by norm_num, by norm_num⟩

/-- The dictionary returned by `match_all`. -/
structure MatchOutput where
  matched_entities : List MatchedEntity
  statistics : MatchStatistics
  deriving DecidableEq, Repr

/-- Embeds `CombinedBoundsMatcher.match_all` (lines 93-131): run the entity loop,
then compute the statistics — `matched` counts confidence `> 0.5`,
`partial_matched` counts `0 < confidence ≤ 0.5`, `unmatched` counts
`confidence == 0`, `total_entities` is the input length. -/
def match_all (f : String → String → MatchedEntity) (entities : List EntityDict) :
    Except String MatchOutput :=
  match matchLoop f entities with
  | .error k => .error k
  | .ok rs =>
    .ok { matched_entities := rs
          statistics :=
            { total_entities := entities.length
              matched := rs.countP (fun r => decide (oneHalf < r.confidence))
              partial_matched :=
                rs.countP (fun r => decide (0 < r.confidence ∧ r.confidence ≤ oneHalf))
              unmatched := rs.countP (fun r => decide (r.confidence = 0))
              strategies_used := strategiesUsedOf rs } }

/-- Python's `page_text.find(search_text, start)` scanning upward from `idx` with
explicit fuel; `fuel = hay.length + 1 - idx` visits every candidate index
up to `hay.length`. -/
def findFromGo (hay pat : List Char) : ℕ → ℕ → Option ℕ
  | _, 0 => none
  | idx, fuel + 1 =>
    if pat.isPrefixOf (hay.drop idx) then some idx
    else findFromGo hay pat (idx + 1) fuel

/-- Python `page_text.find(search_text, start)`: the smallest index
`i ≥ start` at which `pat` occurs in `hay` (`none` for Python's `-1`). -/
def findFrom (hay pat : List Char) (start : ℕ) : Option ℕ :=
  if start ≤ hay.length then findFromGo hay pat start (hay.length + 1 - start)
  else none

/-- One match dict appended by `search_with_context`; `page` keeps the
0-indexed `page_num` the source marks
`# BUG: Should be page_num + 1 for consistency`. -/
structure MatchDict where
  page : ℕ
  position : ℕ
  context : String
  bounds : Option Bounds
  deriving DecidableEq, Repr

/-- The inner `while True` loop of `search_with_context`: find each
occurrence from `start`, slice the surrounding context, attach — exactly as
the source does — `find_exact_bounds(search_text)` as the bounds, and
continue from `idx + 1`.  The fuel (`hay.length + 2` at the top call)
bounds the iterations; since `start` strictly increases and never exceeds
`hay.length + 1`, that fuel is never exhausted before the loop breaks. -/
def collectGo (doc : PDFDoc) (search_text : String) (context_chars : ℕ)
    (page_num : ℕ) (hay : List Char) : ℕ → ℕ → List MatchDict
  | _, 0 => []
  | start, fuel + 1 =>
    match findFrom hay search_text.data start with
    | none => []
    | some idx =>
      let context_start := idx - context_chars
      let context_end := min hay.length (idx + search_text.length + context_chars)
      { page := page_num
        position := idx
        context := ⟨(hay.drop context_start).take (context_end - context_start)⟩
        bounds := find_exact_bounds doc search_text } ::
        collectGo doc search_text context_chars page_num hay (idx + 1) fuel

/-- The page loop of `search_with_context`, threading the text cache
through `get_page_text`.  The `none` branch of the page text is
unreachable: the loop only visits indices below the page count. -/
def search_with_context_go (doc : PDFDoc) (search_text : String)
    (context_chars : ℕ) : List ℕ → ExtractorState → List MatchDict × ExtractorState
  | [], st => ([], st)
  | pn :: rest, st =>
    let r1 := get_page_text doc st pn
    let ms := match r1.1 with
      | none => []
      | some txt =>
        collectGo doc search_text context_chars pn txt.data 0 (txt.data.length + 2)
    let r2 := search_with_context_go doc search_text context_chars rest r1.2
    (ms ++ r2.1, r2.2)

/-- Embeds `PDFBoundsExtractor.search_with_context` (lines 102-138): for every
page in order, find all occurrences of the text on that page and return
the match dicts, every one carrying `find_exact_bounds(search_text)`. -/
def search_with_context (doc : PDFDoc) (st : ExtractorState)
    (search_text : String) (context_chars : ℕ) : List MatchDict × ExtractorState :=
  search_with_context_go doc search_text context_chars
    (List.range doc.pages.length) st

end Src

namespace Spec

/-- Modelled from the spec: §4.3-§4.5 and §9 — the acceptance thresholds
and penalty factors of the (missing-from-src) strategies, exposed as
configuration with the spec's example defaults. -/
structure Config where
  partialFloor : ℚ
  minAnchorLen : ℕ
  proximityBound : ℚ
  aggregationPenalty : ℚ
  fuzzyThreshold : ℚ
  fuzzyPenalty : ℚ
  deriving DecidableEq, Repr

/-- The spec's example values: coverage floor 0.3, minimum anchor 8,
proximity 0.05 of the page height, aggregation penalty 0.9, fuzzy
threshold 0.6, fuzzy penalty 0.8. -/
def defaultConfig : Config :=
  { partialFloor := 3/10
    minAnchorLen := 8
    proximityBound := 1/20
    aggregationPenalty := 9/10
    fuzzyThreshold := 3/5
    fuzzyPenalty := 4/5 }

/-- Admissible configurations: the penalty factors are in `[0,1]`
(the spec's §9 leaves the exact values open but they scale confidences,
which must stay in `[0,1]`). -/
def Config.Valid (cfg : Config) : Prop :=
  0 ≤ cfg.aggregationPenalty ∧ cfg.aggregationPenalty ≤ 1 ∧
    0 ≤ cfg.fuzzyPenalty ∧ cfg.fuzzyPenalty ≤ 1

/-- Modelled from the spec: the punctuation and whitespace characters the
partial matcher strips from the outside of the entity text. -/
def isOuterChar (c : Char) : Bool :=
  c == ' ' || c == '\t' || c == '\n' || c == '.' || c == ',' || c == ';' ||
    c == ':' || c == '!' || c == '?' || c == '(' || c == ')'

/-- Drop matching characters from the end of a list. -/
def rstripWhile (p : Char → Bool) (l : List Char) : List Char :=
  (l.reverse.dropWhile p).reverse

/-- Modelled from the spec: anchor (a) of §4.3 — the text with leading and
trailing punctuation/whitespace runs stripped. -/
def stripOuter (s : String) : String :=
  ⟨rstripWhile isOuterChar (s.data.dropWhile isOuterChar)⟩

/-- Modelled from the spec: anchor (b) of §4.3 — the text with the leading
qualifier token (and the spaces after it) removed. -/
def dropLeadingToken (s : String) : String :=
  ⟨(s.data.dropWhile (fun c => !(c == ' '))).dropWhile (fun c => c == ' ')⟩

/-- Modelled from the spec: anchor (b) of §4.3 — the text with the trailing
qualifier token (and the spaces before it) removed. -/
def dropTrailingToken (s : String) : String :=
  ⟨rstripWhile (fun c => c == ' ') (rstripWhile (fun c => !(c == ' ')) s.data)⟩

/-- Modelled from the spec: anchors (c) of §4.3 — shrinking proper prefixes
of the text, down to the configured minimum anchor length. -/
def prefixAnchors (cfg : Config) (s : String) : List String :=
  ((List.range s.length).reverse.filter (fun n => cfg.minAnchorLen ≤ n)).map
    (fun n => ⟨s.data.take n⟩)

/-- Modelled from the spec: §4.3 — the ordered list of shrinking candidate
anchors. -/
def partialAnchors (cfg : Config) (s : String) : List String :=
  [stripOuter s, dropTrailingToken s, dropLeadingToken s] ++ prefixAnchors cfg s

/-- Modelled from the spec: §4.3 Partial Matcher (missing from src) — try
each anchor, in order, by literal search across all pages (the base
extractor's `find_exact_bounds`); stop at the first hit; confidence is the
matched anchor's length over the original text's length, and results below
the configured floor are failures. -/
def partialResult (doc : PDFDoc) (cfg : Config) (name : String) : BoundsResult :=
  match (partialAnchors cfg name).findSome?
      (fun a => (Src.find_exact_bounds doc a).map (fun b => (a, b))) with
  | none => ⟨false, none, 0, [], "partial"⟩
  | some hit =>
    if (hit.1.length : ℚ) / (name.length : ℚ) < cfg.partialFloor then
      ⟨false, none, 0, [], "partial"⟩
    else ⟨true, some hit.2, (hit.1.length : ℚ) / (name.length : ℚ), [], "partial"⟩

/-- Modelled from the spec: the §4.4 split policy, instantiated at the
token-index split point after the first token: the leading token and the
remainder. -/
def splitComponents (s : String) : Option (String × String) :=
  if (s.data.takeWhile (fun c => !(c == ' '))).isEmpty ||
      ((s.data.dropWhile (fun c => !(c == ' '))).dropWhile (fun c => c == ' ')).isEmpty then
    none
  else
    some (⟨s.data.takeWhile (fun c => !(c == ' '))⟩,
      ⟨(s.data.dropWhile (fun c => !(c == ' '))).dropWhile (fun c => c == ' ')⟩)

/-- The minimal enclosing bounds of two normalized bounds on one page. -/
def mergeBounds (b1 b2 : Bounds) : Bounds :=
  let x := min b1.x b2.x
  let y := min b1.y b2.y
  { page := b1.page
    x := x
    y := y
    width := max (b1.x + b1.width) (b2.x + b2.width) - x
    height := max (b1.y + b1.height) (b2.y + b2.height) - y }

/-- Modelled from the spec: §4.4 Aggregation Matcher (missing from src) —
split the entity in two components, locate each by literal search; when
both land on the same page within the vertical proximity bound, merge into
the minimal enclosing bounds with both components recorded; confidence is
the average of the two literal-hit confidences (1 each) times the
aggregation penalty. -/
def aggregationResult (doc : PDFDoc) (cfg : Config) (name : String) : BoundsResult :=
  match splitComponents name with
  | none => ⟨false, none, 0, [], "aggregation"⟩
  | some c =>
    match Src.find_exact_bounds doc c.1, Src.find_exact_bounds doc c.2 with
    | some b1, some b2 =>
      if b1.page = b2.page ∧ |b2.y - b1.y| ≤ cfg.proximityBound then
        ⟨true, some (mergeBounds b1 b2), ((1 + 1) / 2) * cfg.aggregationPenalty,
          [⟨c.1, some b1⟩, ⟨c.2, some b2⟩], "aggregation"⟩
      else ⟨false, none, 0, [], "aggregation"⟩
    | _, _ => ⟨false, none, 0, [], "aggregation"⟩

/-- Whitespace tokens of a string. -/
def tokensOf (s : String) : List String :=
  (s.split (fun c => c == ' ')).filter (fun t => !(t == ""))

/-- Modelled from the spec: §4.5 — normalized token-overlap similarity:
the number of the entity's tokens present in the candidate, over the
larger of the two token counts. -/
def similarity (a b : String) : ℚ :=
  (((tokensOf a).filter (fun t => (tokensOf b).contains t)).length : ℚ) /
    ((max (tokensOf a).length (tokensOf b).length : ℕ) : ℚ)

/-- All spans of the document, with their 0-indexed page index and page. -/
def allSpans (doc : PDFDoc) : List (ℕ × Page × Span) :=
  doc.pages.enum.flatMap (fun ip =>
    ((ip.2.blocks.filterMap Block.lines).flatten.flatMap Line.spans).map
      (fun sp => (ip.1, ip.2, sp)))

/-- Keep the higher-scored of an accumulated candidate and a new one (the
earlier wins ties). -/
def pickBetter {α : Type} : Option (α × ℚ) → α × ℚ → Option (α × ℚ)
  | none, c => some c
  | some b, c => if b.2 < c.2 then some c else some b

/-- Modelled from the spec: §4.5 — the maximum-similarity candidate over
the document's span pool (the earliest span wins ties). -/
def bestCandidate (doc : PDFDoc) (name : String) :
    Option ((ℕ × Page × Span) × ℚ) :=
  ((allSpans doc).map (fun c => (c, similarity name c.2.2.text))).foldl pickBetter none

/-- Modelled from the spec: §4.5 Fuzzy Matcher (missing from src) — fail
outright below the acceptance threshold; otherwise confidence is the score
times the fuzzy penalty, and the bounds are the winning span's rectangle
normalized to its page (§4.1: spans are consumed normalized). -/
def fuzzyResult (doc : PDFDoc) (cfg : Config) (name : String) : BoundsResult :=
  match bestCandidate doc name with
  | none => ⟨false, none, 0, [], "fuzzy"⟩
  | some c =>
    if c.2 < cfg.fuzzyThreshold then ⟨false, none, 0, [], "fuzzy"⟩
    else
      ⟨true, some (Src.normalize_bounds c.1.2.2.bbox c.1.2.1 c.1.1),
        c.2 * cfg.fuzzyPenalty, [], "fuzzy"⟩

/-- Modelled from the spec: §4.2 Exact Matcher — the base extractor's
literal search over all pages; a hit has confidence 1. -/
def exactResult (doc : PDFDoc) (name : String) : BoundsResult :=
  match Src.find_exact_bounds doc name with
  | some b => ⟨true, some b, 1, [], "exact"⟩
  | none => ⟨false, none, 0, [], "exact"⟩

/-- The closed set of fallback strategies of §4.6 (exact always runs first
and is not part of the per-type chain). -/
inductive StratKind where
  | partialK
  | aggregationK
  | fuzzyK
  deriving DecidableEq, Repr

/-- Modelled from the spec: §4.6 — the type-specific fallback ordering:
numeric/KPI-like types get aggregation first, date/organization/plain
types skip aggregation, unrecognized types try everything. -/
def chainFor (entity_type : String) : List StratKind :=
  if entity_type ∈ ["KPI", "NUMERIC", "PERCENTAGE", "CURRENCY"] then
    [.aggregationK, .partialK, .fuzzyK]
  else if entity_type ∈ ["DATE", "ORGANIZATION", "TEXT", "PLAIN"] then
    [.partialK, .fuzzyK]
  else [.partialK, .aggregationK, .fuzzyK]

/-- Dispatch one strategy. -/
def runStrategy (doc : PDFDoc) (cfg : Config) (name : String) :
    StratKind → BoundsResult
  | .partialK => partialResult doc cfg name
  | .aggregationK => aggregationResult doc cfg name
  | .fuzzyK => fuzzyResult doc cfg name

/-- The first strategy of the chain whose result reports success. -/
def firstSuccess (doc : PDFDoc) (cfg : Config) (name : String) :
    List StratKind → Option BoundsResult
  | [] => none
  | s :: rest =>
    if (runStrategy doc cfg name s).success then some (runStrategy doc cfg name s)
    else firstSuccess doc cfg name rest

/-- Modelled from the spec: §4.6 Dispatcher (missing from src —
`CombinedBoundsMatcher.match_entity` is a TODO stub): always attempt exact
first, then iterate the type-specific chain, stopping at the first
success; if none succeed, the "none" entity with confidence 0, no bounds
and no components. -/
def computeMatch (doc : PDFDoc) (cfg : Config)
    (entity_name entity_type : String) : MatchedEntity :=
  match (if (exactResult doc entity_name).success then some (exactResult doc entity_name)
      else firstSuccess doc cfg entity_name (chainFor entity_type)) with
  | some r =>
    { entity_name := entity_name
      entity_type := entity_type
      match_strategy := r.strategy_name
      confidence := r.confidence
      bounds := r.bounds
      component_matches := r.components }
  | none =>
    { entity_name := entity_name
      entity_type := entity_type
      match_strategy := "none"
      confidence := 0
      bounds := none
      component_matches := [] }

/-- The dispatcher's result cache, keyed by `(entity_name, entity_type)`. -/
structure MatcherState where
  cache : List ((String × String) × MatchedEntity)
  deriving DecidableEq, Repr

/-- A freshly constructed matcher: empty cache. -/
def initMatcherState : MatcherState := ⟨[]⟩

/-- Cache lookup by `(entity_name, entity_type)`. -/
def lookupCache (st : MatcherState) (n t : String) : Option MatchedEntity :=
  st.cache.lookup (n, t)

/-- Modelled from the spec: §4.6 (missing from src — the result cache is an
unimplemented TODO): a cache keyed by `(entity_name, entity_type)`
short-circuits repeated invocations; a miss computes via the dispatcher
and stores the result. -/
def match_entity (doc : PDFDoc) (cfg : Config) (st : MatcherState)
    (entity_name entity_type : String) : MatchedEntity × MatcherState :=
  match lookupCache st entity_name entity_type with
  | some r => (r, st)
  | none =>
    (computeMatch doc cfg entity_name entity_type,
      ⟨((entity_name, entity_type), computeMatch doc cfg entity_name entity_type) ::
        st.cache⟩)

/-- A cache state is coherent when every cached entry is exactly what the
dispatcher would compute for its key. -/
def StateWf (doc : PDFDoc) (cfg : Config) (st : MatcherState) : Prop :=
  ∀ n t r, lookupCache st n t = some r → r = computeMatch doc cfg n t

end Spec

/-! Auxiliary definitions used by the verification: derived observations on
the embedded program and the concrete documents the theorems are
instantiated on. -/

/-- The sum of the counts of a `strategies_used` dict. -/
def sumCounts (su : List (String × ℕ)) : ℕ :=
  (su.map Prod.snd).sum

/-- The key whose access raises `KeyError` in the `match_all` loop for one
entity dict: `"name"` when the name is absent (it is read first), else
`"type"` when the type is absent, else none. -/
def missingKey (e : Src.EntityDict) : Option String :=
  match e.name with
  | none => some "name"
  | some _ =>
    match e.type with
    | none => some "type"
    | some _ => none

/-- Run a sequence of `get_page_text` calls, threading the extractor
state. -/
def runGetPageText (doc : PDFDoc) : List ℕ → Src.ExtractorState → Src.ExtractorState
  | [], st => st
  | pn :: rest, st => runGetPageText doc rest (Src.get_page_text doc st pn).2

/-- Coherence of an extractor state: cached texts are the pages' texts,
the extraction ran at most once per page, and never for an uncached
page. -/
def ExtractorWf (doc : PDFDoc) (st : Src.ExtractorState) : Prop :=
  (∀ p t, st.text_cache.lookup p = some t →
      (doc.pages[p]?).map Page.rawText = some t) ∧
    (∀ p : ℕ, st.extract_log.count p ≤ 1) ∧
    (∀ p : ℕ, st.text_cache.lookup p = none → st.extract_log.count p = 0)

/-- A document with no pages. -/
def emptyDoc : PDFDoc := ⟨[]⟩

/-- A one-page document whose page contains the literal text
"Total Revenue" at the raw rectangle `(72, 72, 200, 84)`. -/
def pageA : Page :=
  { width := 612
    height := 792
    rawText := "Total Revenue: 500"
    searchFor := fun t => if t = "Total Revenue" then [⟨72, 72, 200, 84⟩] else []
    blocks := [] }

/-- The document holding `pageA` alone. -/
def docA : PDFDoc := ⟨[pageA]⟩

/-- A one-page document with a single span "Revenue" at the raw rectangle
`(72, 700, 200, 712)` on a 612 x 792 page. -/
def pageB : Page :=
  { width := 612
    height := 792
    rawText := "Revenue"
    searchFor := fun _ => []
    blocks := [{ lines := some [{ spans :=
      [{ text := "Revenue", bbox := ⟨72, 700, 200, 712⟩ }] }] }] }

/-- The document holding `pageB` alone. -/
def docB : PDFDoc := ⟨[pageB]⟩

/-- A one-page document whose 2 x 2 page reads "abab", with a literal-search
hit for "ab" at the raw rectangle `(0, 0, 1, 1)`. -/
def pageC : Page :=
  { width := 2
    height := 2
    rawText := "abab"
    searchFor := fun t => if t = "ab" then [⟨0, 0, 1, 1⟩] else []
    blocks := [] }

/-- The document holding `pageC` alone. -/
def docC : PDFDoc := ⟨[pageC]⟩

/-- An entity dict with no "name" key (and type "KPI"). -/
def entNoName : Src.EntityDict := ⟨none, some "KPI"⟩

/-- An entity dict with no "type" key (and name "Revenue"). -/
def entNoType : Src.EntityDict := ⟨some "Revenue", none⟩

/-- A well-formed entity dict. -/
def entGood : Src.EntityDict := ⟨some "Revenue", some "KPI"⟩

/-- A second well-formed entity dict. -/
def entGood2 : Src.EntityDict := ⟨some "Q3 2024", some "DATE"⟩

/-- The output `match_all` produces on `[entGood, entGood2]` with the
source's stub `match_entity`: both entities unmatched. -/
def outStub : Src.MatchOutput :=
  { matched_entities :=
      [{ entity_name := "Revenue", entity_type := "KPI", match_strategy := "none",
         confidence := 0, bounds := none, component_matches := [] },
       { entity_name := "Q3 2024", entity_type := "DATE", match_strategy := "none",
         confidence := 0, bounds := none, component_matches := [] }]
    statistics :=
      { total_entities := 2
        matched := 0
        partial_matched := 0
        unmatched := 2
        strategies_used := [("none", 2)] } }

/-- The first match dict `search_with_context` returns on `docC` for
"ab" with 1 context character: position 0, context "aba", and — like every
other match — the bounds of the document-wide first occurrence. -/
def matchDictC : Src.MatchDict :=
  { page := 0
    position := 0
    context := "aba"
    bounds := Src.find_exact_bounds docC "ab" }

/-! The theorems. -/

/-- C2: refuted as stated — the code stores the 0-indexed loop counter in
`Bounds.page` (the source's own `# BUG` comments in `_normalize_bounds`
and `extract_all_text_blocks`), so a hit on the first page carries
`page = 0`, not `page ≥ 1`: on `docA`, whose first page contains
"Total Revenue", `find_exact_bounds` returns page 0, and on `docB` the
span blocks of page 0 carry page 0 as well. -/
theorem C2_pages_zero_indexed_bug :
    (Src.find_exact_bounds docA "Total Revenue").map Bounds.page = some 0 ∧
      (Src.extract_all_text_blocks docB 0).map (fun l => l.map fun e => e.2.page) =
        some [0] :=
  ⟨rfl, rfl⟩

/-- C3: refuted as stated — `extract_all_text_blocks` copies the raw pixel
`bbox` into the returned bounds (the `# BUG: Not normalized!` lines), so
on `docB` (a 612 x 792 page with a span at raw rectangle
`(72, 700, 200, 712)`) the returned x-coordinate is 72 and the
y-coordinate 700, far outside `[0, 1]`. -/
theorem C3_unnormalized_blocks_bug :
    (Src.extract_all_text_blocks docB 0).map
        (fun l => l.map fun e => (e.1, e.2.page, e.2.x, e.2.y)) =
      some [("Revenue", 0, 72, 700)] ∧ ¬ (72 : ℚ) ≤ 1 :=
  ⟨rfl, by norm_num⟩

/-- Every match dict the inner occurrence loop of `search_with_context`
produces carries `find_exact_bounds(search_text)` as its bounds. -/
theorem collectGo_bounds (doc : PDFDoc) (t : String) (ctx pn : ℕ)
    (hay : List Char) :
    ∀ fuel start m, m ∈ Src.collectGo doc t ctx pn hay start fuel →
      m.bounds = Src.find_exact_bounds doc t := by
  intro fuel
  induction fuel with
  | zero => intro start m hm; simp [Src.collectGo] at hm
  | succ n ih =>
    intro start m hm
    rw [Src.collectGo] at hm
    cases h : Src.findFrom hay t.data start with
    | none => rw [h] at hm; simp at hm
    | some idx =>
      rw [h] at hm
      simp only [List.mem_cons] at hm
      rcases hm with hm | hm
      · subst hm; rfl
      · exact ih _ m hm

/-- Every match dict the page loop of `search_with_context` produces
carries `find_exact_bounds(search_text)` as its bounds. -/
theorem search_go_bounds (doc : PDFDoc) (t : String) (ctx : ℕ) :
    ∀ pns st m, m ∈ (Src.search_with_context_go doc t ctx pns st).1 →
      m.bounds = Src.find_exact_bounds doc t := by
  intro pns
  induction pns with
  | nil => intro st m hm; simp [Src.search_with_context_go] at hm
  | cons pn rest ih =>
    intro st m hm
    rw [Src.search_with_context_go] at hm
    simp only [List.mem_append] at hm
    rcases hm with hm | hm
    · cases h : (Src.get_page_text doc st pn).1 with
      | none => rw [h] at hm; simp at hm
      | some txt =>
        rw [h] at hm
        exact collectGo_bounds doc t ctx pn txt.data _ _ m hm
    · exact ih _ m hm

/-- C10: every match dict returned by `search_with_context` carries bounds
equal to `find_exact_bounds(search_text)` — the normalized bounds of the
document's first occurrence — so when the text occurs several times every
returned match shares that same first-occurrence bounds instead of the
bounds of its own occurrence. -/
theorem C10_bounds_first_occurrence (doc : PDFDoc) (st : Src.ExtractorState)
    (t : String) (ctx : ℕ) (m : Src.MatchDict)
    (hm : m ∈ (Src.search_with_context doc st t ctx).1) :
    m.bounds = Src.find_exact_bounds doc t :=
  search_go_bounds doc t ctx _ st m hm

/-- C10 witness: on `docC` ("abab", searching "ab") the loop finds two
occurrences; the first returned match dict is `matchDictC`, its bounds are
`find_exact_bounds docC "ab"`, and those bounds are the concrete
first-occurrence rectangle `(page 0, 0, 0, 1/2, 1/2)`. -/
theorem C10_bounds_first_occurrence_witness :
    matchDictC ∈ (Src.search_with_context docC Src.initExtractorState "ab" 1).1 ∧
      matchDictC.bounds = Src.find_exact_bounds docC "ab" ∧
      Src.find_exact_bounds docC "ab" =
        some { page := 0, x := 0, y := 0, width := 1/2, height := 1/2 } := by
  have hm : matchDictC ∈ (Src.search_with_context docC Src.initExtractorState "ab" 1).1 := by
    have hlist : (Src.search_with_context docC Src.initExtractorState "ab" 1).1 =
        [matchDictC,
         { page := 0, position := 2, context := "bab",
           bounds := Src.find_exact_bounds docC "ab" }] := rfl
    rw [hlist]
    exact List.mem_cons_self _ _
  refine ⟨hm, C10_bounds_first_occurrence docC Src.initExtractorState "ab" 1 matchDictC hm, ?_⟩
  norm_num [Src.find_exact_bounds, Src.find_exact_bounds_go, docC, pageC,
    Src.normalize_bounds]

/-- C9 counterexample: the error `match_all` aborts with does not report
the offending entity's position — the same error value `KeyError("name")`
is produced whether the malformed entity sits at position 0 or at
position 1, so no function of the error can recover the position. -/
theorem C9_error_position_counterexample :
    Src.match_all Src.match_entity [entNoName] = .error "name" ∧
      Src.match_all Src.match_entity [entGood, entNoName] = .error "name" :=
  ⟨rfl, rfl⟩

/-- The `match_all` loop aborts with the missing key of the first
malformed entity. -/
theorem matchLoop_error (f : String → String → MatchedEntity) :
    ∀ (es : List Src.EntityDict) (i : ℕ) (e : Src.EntityDict) (k : String),
      es[i]? = some e → missingKey e = some k →
      (∀ j, j < i → ∀ ej, es[j]? = some ej → missingKey ej = none) →
      Src.matchLoop f es = .error k := by
  intro es
  induction es with
  | nil => intro i e k hi _ _; simp at hi
  | cons e0 rest ih =>
    intro i e k hi hk hbefore
    cases i with
    | zero =>
      have he : e0 = e := by simpa using hi
      subst he
      rw [Src.matchLoop]
      rw [missingKey] at hk
      cases hn : e0.name with
      | none =>
        rw [hn] at hk
        simp only [Option.some.injEq] at hk
        subst hk
        rfl
      | some n =>
        rw [hn] at hk
        cases ht : e0.type with
        | none =>
          rw [ht] at hk
          simp only [Option.some.injEq] at hk
          subst hk
          rfl
        | some t => rw [ht] at hk; exact absurd hk (by simp)
    | succ i0 =>
      have h0 : missingKey e0 = none := hbefore 0 (Nat.succ_pos i0) e0 (by simp)
      rw [missingKey] at h0
      cases hn : e0.name with
      | none => rw [hn] at h0; exact absurd h0 (by simp)
      | some n =>
        rw [hn] at h0
        cases ht : e0.type with
        | none => rw [ht] at h0; exact absurd h0 (by simp)
        | some t =>
          rw [Src.matchLoop, hn, ht]
          have hrec := ih i0 e k (by simpa using hi) hk
            (fun j hj ej hej =>
              hbefore (j + 1) (by omega) ej (by simpa using hej))
          rw [hrec]

/-- C9 (amended): a batch containing an entity dict that misses a required
field is aborted whole, with a `KeyError` naming the missing field of the
first malformed entity ("name" is checked before "type"); the error does
not carry the entity's position. -/
theorem C9_aborts_named_key (f : String → String → MatchedEntity)
    (entities : List Src.EntityDict) (i : ℕ) (e : Src.EntityDict) (k : String)
    (hi : entities[i]? = some e) (hk : missingKey e = some k)
    (hbefore : ∀ j, j < i → ∀ ej, entities[j]? = some ej → missingKey ej = none) :
    Src.match_all f entities = .error k := by
  rw [Src.match_all, matchLoop_error f entities i e k hi hk hbefore]

/-- C9 witness: a batch whose second entity misses the "type" field aborts
with `KeyError("type")`. -/
theorem C9_aborts_named_key_witness :
    Src.match_all Src.match_entity [entGood, entNoType] = .error "type" :=
  C9_aborts_named_key Src.match_entity [entGood, entNoType] 1 entNoType "type"
    rfl rfl
    (by
      intro j hj ej hej
      cases j with
      | zero =>
        have h := (by simpa using hej : entGood = ej)
        rw [← h]
        rfl
      | succ j0 => exact absurd hj (by omega))

/-- The `match_all` loop yields one result per input entity. -/
theorem matchLoop_ok_length (f : String → String → MatchedEntity) :
    ∀ (es : List Src.EntityDict) (rs : List MatchedEntity),
      Src.matchLoop f es = .ok rs → rs.length = es.length := by
  intro es
  induction es with
  | nil =>
    intro rs h
    rw [Src.matchLoop] at h
    simp only [Except.ok.injEq] at h
    rw [← h]
    rfl
  | cons e rest ih =>
    intro rs h
    rw [Src.matchLoop] at h
    cases hn : e.name with
    | none => rw [hn] at h; exact absurd h (by simp)
    | some n =>
      rw [hn] at h
      cases ht : e.type with
      | none => rw [ht] at h; exact absurd h (by simp)
      | some t =>
        rw [ht] at h
        cases hrec : Src.matchLoop f rest with
        | error k => rw [hrec] at h; exact absurd h (by simp)
        | ok rs0 =>
          rw [hrec] at h
          simp only [Except.ok.injEq] at h
          rw [← h]
          simp [ih rs0 hrec]

/-- Every result the `match_all` loop yields is a value of the per-entity
matcher. -/
theorem matchLoop_ok_mem (f : String → String → MatchedEntity) :
    ∀ (es : List Src.EntityDict) (rs : List MatchedEntity),
      Src.matchLoop f es = .ok rs → ∀ r ∈ rs, ∃ n t, r = f n t := by
  intro es
  induction es with
  | nil =>
    intro rs h
    rw [Src.matchLoop] at h
    simp only [Except.ok.injEq] at h
    rw [← h]
    intro r hr
    exact absurd hr (by simp)
  | cons e rest ih =>
    intro rs h
    rw [Src.matchLoop] at h
    cases hn : e.name with
    | none => rw [hn] at h; exact absurd h (by simp)
    | some n =>
      rw [hn] at h
      cases ht : e.type with
      | none => rw [ht] at h; exact absurd h (by simp)
      | some t =>
        rw [ht] at h
        cases hrec : Src.matchLoop f rest with
        | error k => rw [hrec] at h; exact absurd h (by simp)
        | ok rs0 =>
          rw [hrec] at h
          simp only [Except.ok.injEq] at h
          rw [← h]
          intro r hr
          rcases List.mem_cons.mp hr with hr | hr
          · exact ⟨n, t, hr⟩
          · exact ih rs0 hrec r hr

/-- A nonnegative confidence falls in exactly one of the three statistics
buckets (`> 0.5`, `(0, 0.5]`, `= 0`). -/
theorem bucket_sum (c : ℚ) (hc : 0 ≤ c) :
    ((if Src.oneHalf < c then 1 else 0) +
        (if 0 < c ∧ c ≤ Src.oneHalf then 1 else 0) +
        (if c = 0 then 1 else 0) : ℕ) = 1 := by
  have h01 : (0 : ℚ) < Src.oneHalf := by decide
  rcases eq_or_lt_of_le hc with h0 | hpos
  · rw [if_neg (by rw [← h0]; exact fun hlt => lt_irrefl 0 (h01.trans hlt)),
      if_neg (by rw [← h0]; exact fun hp => lt_irrefl 0 hp.1),
      if_pos h0.symm]
  · rcases le_or_lt c Src.oneHalf with hle | hgt
    · rw [if_neg (not_lt.mpr hle), if_pos ⟨hpos, hle⟩,
        if_neg fun h => lt_irrefl 0 (h ▸ hpos)]
    · rw [if_pos hgt, if_neg fun h => absurd h.2 (not_le.mpr hgt),
        if_neg fun h => lt_irrefl 0 (h ▸ hpos)]

/-- Over results with nonnegative confidence, the three bucket counts
partition the list. -/
theorem countP_conf_partition (rs : List MatchedEntity)
    (h : ∀ r ∈ rs, 0 ≤ r.confidence) :
    rs.countP (fun r => decide (Src.oneHalf < r.confidence)) +
        rs.countP (fun r => decide (0 < r.confidence ∧ r.confidence ≤ Src.oneHalf)) +
        rs.countP (fun r => decide (r.confidence = 0)) = rs.length := by
  induction rs with
  | nil => simp
  | cons r rest ih =>
    have hr := h r (List.mem_cons_self r rest)
    have hrest := ih fun x hx => h x (List.mem_cons_of_mem _ hx)
    simp only [List.countP_cons, List.length_cons, decide_eq_true_eq]
    have hb := bucket_sum r.confidence hr
    omega

/-- Bumping a key adds exactly one to the total count. -/
theorem sumCounts_bump (su : List (String × ℕ)) (k : String) :
    sumCounts (Src.bump su k) = sumCounts su + 1 := by
  induction su with
  | nil => rfl
  | cons p rest ih =>
    rw [Src.bump]
    by_cases h : p.1 = k
    · rw [if_pos h]
      simp only [sumCounts, List.map_cons, List.sum_cons]
      omega
    · rw [if_neg h]
      simp only [sumCounts, List.map_cons, List.sum_cons] at ih ⊢
      omega

/-- Folding `bump` over a result list adds the list's length to the total
count. -/
theorem sumCounts_foldl (rs : List MatchedEntity) :
    ∀ su, sumCounts (rs.foldl (fun s r => Src.bump s r.match_strategy) su) =
      sumCounts su + rs.length := by
  induction rs with
  | nil => intro su; simp
  | cons r rest ih =>
    intro su
    rw [List.foldl_cons, ih]
    rw [sumCounts_bump]
    simp only [List.length_cons]
    omega

/-- C6: for a batch of `N` entities accepted by `match_all` (with a
per-entity matcher of nonnegative confidence, as `match_entity`
guarantees), the statistics satisfy
`matched + partial_matched + unmatched = N = total_entities`, and the
counts in `strategies_used` sum to `N`. -/
theorem C6_statistics_sum (f : String → String → MatchedEntity)
    (entities : List Src.EntityDict) (out : Src.MatchOutput)
    (hf : ∀ n t, 0 ≤ (f n t).confidence)
    (h : Src.match_all f entities = .ok out) :
    out.statistics.matched + out.statistics.partial_matched +
        out.statistics.unmatched = entities.length ∧
      out.statistics.total_entities = entities.length ∧
      sumCounts out.statistics.strategies_used = entities.length := by
  rw [Src.match_all] at h
  cases hl : Src.matchLoop f entities with
  | error k => rw [hl] at h; exact absurd h (by simp)
  | ok rs =>
    rw [hl] at h
    simp only [Except.ok.injEq] at h
    rw [← h]
    have hlen := matchLoop_ok_length f entities rs hl
    have hconf : ∀ r ∈ rs, 0 ≤ r.confidence := by
      intro r hr
      obtain ⟨n, t, rfl⟩ := matchLoop_ok_mem f entities rs hl r hr
      exact hf n t
    refine ⟨?_, rfl, ?_⟩
    · show rs.countP (fun r => decide (Src.oneHalf < r.confidence)) +
          rs.countP (fun r => decide (0 < r.confidence ∧ r.confidence ≤ Src.oneHalf)) +
          rs.countP (fun r => decide (r.confidence = 0)) = entities.length
      rw [countP_conf_partition rs hconf, hlen]
    · show sumCounts (Src.strategiesUsedOf rs) = entities.length
      rw [Src.strategiesUsedOf, sumCounts_foldl rs []]
      simp only [sumCounts, List.map_nil, List.sum_nil]
      omega

/-- C6 witness: on the two-entity batch `[entGood, entGood2]` with the
source's stub `match_entity`, the statistics identity holds (0 + 0 + 2 =
2 = total, strategy counts sum to 2). -/
theorem C6_statistics_sum_witness :
    outStub.statistics.matched + outStub.statistics.partial_matched +
        outStub.statistics.unmatched = 2 ∧
      outStub.statistics.total_entities = 2 ∧
      sumCounts outStub.statistics.strategies_used = 2 :=
  C6_statistics_sum Src.match_entity [entGood, entGood2] outStub
    (fun _ _ => le_refl 0) rfl

/-- Lookup of a just-inserted key. -/
theorem lookup_cons_self {α β : Type} [BEq α] [LawfulBEq α] (k : α) (b : β)
    (l : List (α × β)) : List.lookup k ((k, b) :: l) = some b := by
  rw [List.lookup, beq_self_eq_true]

/-- Lookup past a different key. -/
theorem lookup_cons_ne {α β : Type} [BEq α] [LawfulBEq α] (k q : α) (b : β)
    (l : List (α × β)) (h : ¬ q = k) :
    List.lookup q ((k, b) :: l) = List.lookup q l := by
  rw [List.lookup]
  have hb : (q == k) = false := by simpa using h
  rw [hb]

/-- A fresh extractor state is coherent. -/
theorem initExtractorState_wf (doc : PDFDoc) :
    ExtractorWf doc Src.initExtractorState := by
  refine ⟨?_, ?_, ?_⟩
  · intro p t h
    simp [Src.initExtractorState, List.lookup] at h
  · intro p
    simp [Src.initExtractorState]
  · intro p _
    simp [Src.initExtractorState]

/-- One `get_page_text` call preserves extractor coherence: a cache hit
leaves the state unchanged, a miss extracts once and caches. -/
theorem get_page_text_wf (doc : PDFDoc) (st : Src.ExtractorState) (pn : ℕ)
    (h : ExtractorWf doc st) : ExtractorWf doc (Src.get_page_text doc st pn).2 := by
  obtain ⟨h1, h2, h3⟩ := h
  rw [Src.get_page_text]
  cases hc : st.text_cache.lookup pn with
  | some t => exact ⟨h1, h2, h3⟩
  | none =>
    cases hp : doc.pages[pn]? with
    | none => exact ⟨h1, h2, h3⟩
    | some p =>
      refine ⟨?_, ?_, ?_⟩
      · intro q t hq
        by_cases hqp : q = pn
        · subst hqp
          rw [lookup_cons_self] at hq
          simp only [Option.some.injEq] at hq
          rw [hp, ← hq]
          rfl
        · rw [lookup_cons_ne pn q _ _ hqp] at hq
          exact h1 q t hq
      · intro q
        by_cases hqp : q = pn
        · subst hqp
          have hz := h3 q hc
          simp only [List.count_cons, beq_self_eq_true, if_true]
          omega
        · have : (pn == q) = false := by simpa using fun e => hqp e.symm
          simp only [List.count_cons, this, if_false]
          exact h2 q
      · intro q hq
        by_cases hqp : q = pn
        · subst hqp
          rw [lookup_cons_self] at hq
          exact absurd hq (by simp)
        · rw [lookup_cons_ne pn q _ _ hqp] at hq
          have : (pn == q) = false := by simpa using fun e => hqp e.symm
          simp only [List.count_cons, this, if_false]
          exact h3 q hq

/-- Any sequence of `get_page_text` calls preserves coherence. -/
theorem runGetPageText_wf (doc : PDFDoc) :
    ∀ (calls : List ℕ) (st : Src.ExtractorState),
      ExtractorWf doc st → ExtractorWf doc (runGetPageText doc calls st) := by
  intro calls
  induction calls with
  | nil => intro st h; exact h
  | cons pn rest ih =>
    intro st h
    exact ih _ (get_page_text_wf doc st pn h)

/-- On a coherent state, `get_page_text` returns exactly the page's
text. -/
theorem get_page_text_out (doc : PDFDoc) (st : Src.ExtractorState) (pn : ℕ)
    (h : ExtractorWf doc st) :
    (Src.get_page_text doc st pn).1 = (doc.pages[pn]?).map Page.rawText := by
  obtain ⟨h1, -, -⟩ := h
  rw [Src.get_page_text]
  cases hc : st.text_cache.lookup pn with
  | some t => exact (h1 pn t hc).symm
  | none =>
    cases hp : doc.pages[pn]? with
    | none => simp
    | some p => simp

/-- C8: after any sequence of `get_page_text` calls on a fresh extractor,
a further call for page `pn` returns exactly that page's text (so repeated
calls for one page index always return identical text), and the underlying
extraction has run at most once for `pn`. -/
theorem C8_page_text_memoized (doc : PDFDoc) (calls : List ℕ) (pn : ℕ) :
    (Src.get_page_text doc (runGetPageText doc calls Src.initExtractorState) pn).1 =
        (doc.pages[pn]?).map Page.rawText ∧
      (runGetPageText doc calls Src.initExtractorState).extract_log.count pn ≤ 1 := by
  have hwf := runGetPageText_wf doc calls Src.initExtractorState
    (initExtractorState_wf doc)
  exact ⟨get_page_text_out doc _ pn hwf, hwf.2.1 pn⟩

/-- The page loop of `find_exact_bounds` returns the normalized first
rectangle of the earliest page with a hit, tagged with the loop
counter. -/
theorem find_exact_bounds_go_spec (t : String) :
    ∀ (pages : List Page) (i idx : ℕ) (pg : Page) (r : Rect) (rs : List Rect),
      pages[i]? = some pg → pg.searchFor t = r :: rs →
      (∀ j, j < i → ∀ pj, pages[j]? = some pj → pj.searchFor t = []) →
      Src.find_exact_bounds_go t pages idx =
        some (Src.normalize_bounds r pg (idx + i)) := by
  intro pages
  induction pages with
  | nil => intro i idx pg r rs hp _ _; simp at hp
  | cons p0 rest ih =>
    intro i idx pg r rs hp hr hbefore
    cases i with
    | zero =>
      have he : p0 = pg := by simpa using hp
      subst he
      rw [Src.find_exact_bounds_go, hr]
      simp
    | succ i0 =>
      have h0 : p0.searchFor t = [] := hbefore 0 (Nat.succ_pos i0) p0 (by simp)
      rw [Src.find_exact_bounds_go, h0]
      have harith : idx + 1 + i0 = idx + (i0 + 1) := by omega
      rw [← harith]
      exact ih i0 (idx + 1) pg r rs (by simpa using hp) hr
        (fun j hj pj hpj => hbefore (j + 1) (by omega) pj (by simpa using hpj))

/-- C1: when the entity text occurs verbatim on some page — the literal
search reports rectangles on page `i` and on no earlier page — the
dispatcher returns a `MatchedEntity` with strategy "exact", confidence 1,
and the normalized bounds of the first matching rectangle of that earliest
page, for every entity type and regardless of the other strategies. -/
theorem C1_exact_verbatim_match (doc : PDFDoc) (cfg : Spec.Config)
    (st : Spec.MatcherState) (name ty : String) (i : ℕ) (pg : Page) (r : Rect)
    (rs : List Rect)
    (hwf : Spec.StateWf doc cfg st)
    (hp : doc.pages[i]? = some pg)
    (hr : pg.searchFor name = r :: rs)
    (hbefore : ∀ j, j < i → ∀ pj, doc.pages[j]? = some pj →
      pj.searchFor name = []) :
    (Spec.match_entity doc cfg st name ty).1 =
      { entity_name := name
        entity_type := ty
        match_strategy := "exact"
        confidence := 1
        bounds := some (Src.normalize_bounds r pg i)
        component_matches := [] } := by
  have hfe : Src.find_exact_bounds doc name =
      some (Src.normalize_bounds r pg i) := by
    have h := find_exact_bounds_go_spec name doc.pages i 0 pg r rs hp hr hbefore
    rw [Src.find_exact_bounds, h]
    simp
  have her : Spec.exactResult doc name =
      ⟨true, some (Src.normalize_bounds r pg i), 1, [], "exact"⟩ := by
    rw [Spec.exactResult, hfe]
  have hcm : Spec.computeMatch doc cfg name ty =
      { entity_name := name
        entity_type := ty
        match_strategy := "exact"
        confidence := 1
        bounds := some (Src.normalize_bounds r pg i)
        component_matches := [] } := by
    rw [Spec.computeMatch, her]
    simp
  rw [Spec.match_entity]
  cases hlk : Spec.lookupCache st name ty with
  | none => rw [hcm]
  | some r0 => rw [hwf name ty r0 hlk, hcm]

/-- C1 witness: on `docA` ("Total Revenue" present on page 0 at raw
rectangle `(72, 72, 200, 84)`), the dispatcher with the default
configuration and a fresh cache matches the entity exactly; the concrete
normalized bounds evaluate to `(page 0, 72/612, 72/792, 128/612,
12/792)`. -/
theorem C1_exact_verbatim_match_witness :
    (Spec.match_entity docA Spec.defaultConfig Spec.initMatcherState
        "Total Revenue" "KPI").1 =
      { entity_name := "Total Revenue"
        entity_type := "KPI"
        match_strategy := "exact"
        confidence := 1
        bounds := some (Src.normalize_bounds ⟨72, 72, 200, 84⟩ pageA 0)
        component_matches := [] } ∧
      Src.normalize_bounds ⟨72, 72, 200, 84⟩ pageA 0 =
        { page := 0, x := 72/612, y := 72/792, width := 128/612,
          height := 12/792 } := by
  constructor
  · exact C1_exact_verbatim_match docA Spec.defaultConfig Spec.initMatcherState
      "Total Revenue" "KPI" 0 pageA ⟨72, 72, 200, 84⟩ []
      (by intro n t r h; simp [Spec.lookupCache, Spec.initMatcherState,
        List.lookup] at h)
      (by simp [docA])
      rfl
      (fun j hj => absurd hj (by omega))
  · rw [Src.normalize_bounds]
    norm_num [pageA, Bounds.mk.injEq]

/-- When every strategy of the chain fails, the fallback iteration yields
nothing. -/
theorem firstSuccess_none (doc : PDFDoc) (cfg : Spec.Config) (name : String) :
    ∀ l, (∀ s ∈ l, (Spec.runStrategy doc cfg name s).success = false) →
      Spec.firstSuccess doc cfg name l = none := by
  intro l
  induction l with
  | nil => intro _; rfl
  | cons s rest ih =>
    intro h
    rw [Spec.firstSuccess, h s (List.mem_cons_self s rest)]
    simpa using ih fun x hx => h x (List.mem_cons_of_mem s hx)

/-- C4: per-entity matching is total (the dispatcher is a function into
`MatchedEntity`), and when the exact search misses and every strategy of
the type's chain fails, the result is the "none" entity: strategy "none",
confidence 0, no bounds, no components. -/
theorem C4_match_total_none (doc : PDFDoc) (cfg : Spec.Config)
    (st : Spec.MatcherState) (name ty : String)
    (hwf : Spec.StateWf doc cfg st)
    (hex : Src.find_exact_bounds doc name = none)
    (hall : ∀ s ∈ Spec.chainFor ty,
      (Spec.runStrategy doc cfg name s).success = false) :
    (Spec.match_entity doc cfg st name ty).1 =
      { entity_name := name
        entity_type := ty
        match_strategy := "none"
        confidence := 0
        bounds := none
        component_matches := [] } := by
  have her : Spec.exactResult doc name = ⟨false, none, 0, [], "exact"⟩ := by
    rw [Spec.exactResult, hex]
  have hcm : Spec.computeMatch doc cfg name ty =
      { entity_name := name
        entity_type := ty
        match_strategy := "none"
        confidence := 0
        bounds := none
        component_matches := [] } := by
    rw [Spec.computeMatch, her, firstSuccess_none doc cfg name _ hall]
    simp
  rw [Spec.match_entity]
  cases hlk : Spec.lookupCache st name ty with
  | none => rw [hcm]
  | some r0 => rw [hwf name ty r0 hlk, hcm]

/-- C4 witness: on the empty document nothing can match, and the
dispatcher returns exactly the "none" entity for a KPI-typed entity. -/
theorem C4_match_total_none_witness :
    (Spec.match_entity emptyDoc Spec.defaultConfig Spec.initMatcherState
        "Total Revenue" "KPI").1 =
      { entity_name := "Total Revenue"
        entity_type := "KPI"
        match_strategy := "none"
        confidence := 0
        bounds := none
        component_matches := [] } :=
  C4_match_total_none emptyDoc Spec.defaultConfig Spec.initMatcherState
    "Total Revenue" "KPI"
    (by intro n t r h; simp [Spec.lookupCache, Spec.initMatcherState,
      List.lookup] at h)
    rfl
    (by intro s hs; fin_cases hs <;> rfl)

/-- C7: the dispatcher is idempotent — a second call with the identical
`(entity_name, entity_type)` pair returns the identical `MatchedEntity`
(and leaves the state unchanged), and the second call is served from the
result cache, which after the first call holds that very result under the
pair. -/
theorem C7_match_entity_idempotent (doc : PDFDoc) (cfg : Spec.Config)
    (st : Spec.MatcherState) (n t : String) :
    (Spec.match_entity doc cfg (Spec.match_entity doc cfg st n t).2 n t).1 =
        (Spec.match_entity doc cfg st n t).1 ∧
      (Spec.match_entity doc cfg (Spec.match_entity doc cfg st n t).2 n t).2 =
        (Spec.match_entity doc cfg st n t).2 ∧
      Spec.lookupCache (Spec.match_entity doc cfg st n t).2 n t =
        some (Spec.match_entity doc cfg st n t).1 := by
  cases hlk : Spec.lookupCache st n t with
  | some r =>
    have h1 : Spec.match_entity doc cfg st n t = (r, st) := by
      rw [Spec.match_entity, hlk]
    rw [h1]
    refine ⟨?_, ?_, hlk⟩
    · show (Spec.match_entity doc cfg st n t).1 = r
      rw [h1]
    · show (Spec.match_entity doc cfg st n t).2 = st
      rw [h1]
  | none =>
    have h1 : Spec.match_entity doc cfg st n t =
        (Spec.computeMatch doc cfg n t,
          ⟨((n, t), Spec.computeMatch doc cfg n t) :: st.cache⟩) := by
      rw [Spec.match_entity, hlk]
    have hlk2 : Spec.lookupCache
        ⟨((n, t), Spec.computeMatch doc cfg n t) :: st.cache⟩ n t =
        some (Spec.computeMatch doc cfg n t) := by
      rw [Spec.lookupCache]
      exact lookup_cons_self (n, t) _ st.cache
    have h2 : Spec.match_entity doc cfg
        ⟨((n, t), Spec.computeMatch doc cfg n t) :: st.cache⟩ n t =
        (Spec.computeMatch doc cfg n t,
          ⟨((n, t), Spec.computeMatch doc cfg n t) :: st.cache⟩) := by
      rw [Spec.match_entity, hlk2]
    rw [h1]
    exact ⟨by rw [h2], by rw [h2], hlk2⟩

/-- Right-stripping never lengthens a list. -/
theorem rstripWhile_length_le (p : Char → Bool) (l : List Char) :
    (Spec.rstripWhile p l).length ≤ l.length := by
  rw [Spec.rstripWhile, List.length_reverse]
  calc (l.reverse.dropWhile p).length
      ≤ l.reverse.length := (List.dropWhile_sublist p).length_le
    _ = l.length := List.length_reverse l

/-- Every partial-matcher anchor is at most as long as the entity text. -/
theorem anchors_length_le (cfg : Spec.Config) (s : String) :
    ∀ a ∈ Spec.partialAnchors cfg s, a.length ≤ s.length := by
  intro a ha
  rw [Spec.partialAnchors] at ha
  simp only [List.mem_append, List.mem_cons, List.not_mem_nil, or_false] at ha
  rcases ha with (h | h | h) | h
  · subst h
    show (Spec.rstripWhile Spec.isOuterChar
      (s.data.dropWhile Spec.isOuterChar)).length ≤ s.data.length
    exact le_trans (rstripWhile_length_le _ _) (List.dropWhile_sublist _).length_le
  · subst h
    show (Spec.rstripWhile (fun c => c == ' ')
      (Spec.rstripWhile (fun c => !(c == ' ')) s.data)).length ≤ s.data.length
    exact le_trans (rstripWhile_length_le _ _) (rstripWhile_length_le _ _)
  · subst h
    show ((s.data.dropWhile (fun c => !(c == ' '))).dropWhile
      (fun c => c == ' ')).length ≤ s.data.length
    exact le_trans (List.dropWhile_sublist _).length_le
      (List.dropWhile_sublist _).length_le
  · rw [Spec.prefixAnchors] at h
    obtain ⟨n, hn, rfl⟩ := List.mem_map.mp h
    show (s.data.take n).length ≤ s.data.length
    rw [List.length_take]
    exact min_le_right _ _

/-- The partial matcher's confidence lies in `[0, 1]`. -/
theorem partialResult_conf (doc : PDFDoc) (cfg : Spec.Config) (name : String) :
    0 ≤ (Spec.partialResult doc cfg name).confidence ∧
      (Spec.partialResult doc cfg name).confidence ≤ 1 := by
  cases hf : (Spec.partialAnchors cfg name).findSome?
      (fun a => (Src.find_exact_bounds doc a).map (fun b => (a, b))) with
  | none =>
    have h : Spec.partialResult doc cfg name =
        ⟨false, none, 0, [], "partial"⟩ := by
      simp [Spec.partialResult, hf]
    rw [h]
    norm_num
  | some hit =>
    have hlen : hit.1.length ≤ name.length := by
      obtain ⟨a, ha, hfa⟩ := List.exists_of_findSome?_eq_some hf
      cases hfb : Src.find_exact_bounds doc a with
      | none => rw [hfb] at hfa; exact absurd hfa (by simp)
      | some b =>
        rw [hfb] at hfa
        have hfa2 : (a, b) = hit := by simpa using hfa
        rw [← hfa2]
        exact anchors_length_le cfg name a ha
    by_cases hcut : (hit.1.length : ℚ) / (name.length : ℚ) < cfg.partialFloor
    · have h : Spec.partialResult doc cfg name =
          ⟨false, none, 0, [], "partial"⟩ := by
        simp [Spec.partialResult, hf, hcut]
      rw [h]
      norm_num
    · have h : Spec.partialResult doc cfg name =
          ⟨true, some hit.2, (hit.1.length : ℚ) / (name.length : ℚ), [],
            "partial"⟩ := by
        simp [Spec.partialResult, hf, hcut]
      rw [h]
      refine ⟨by positivity, ?_⟩
      show (hit.1.length : ℚ) / (name.length : ℚ) ≤ 1
      rcases Nat.eq_zero_or_pos name.length with h0 | hpos
      · have h1 : hit.1.length = 0 := by omega
        rw [h1, h0]
        norm_num
      · rw [div_le_one (by exact_mod_cast hpos)]
        exact_mod_cast hlen

/-- The aggregation matcher's confidence lies in `[0, 1]` for a valid
configuration. -/
theorem aggregationResult_conf (doc : PDFDoc) (cfg : Spec.Config)
    (name : String) (hv : cfg.Valid) :
    0 ≤ (Spec.aggregationResult doc cfg name).confidence ∧
      (Spec.aggregationResult doc cfg name).confidence ≤ 1 := by
  obtain ⟨ha0, ha1, -, -⟩ := hv
  cases hs : Spec.splitComponents name with
  | none =>
    have h : Spec.aggregationResult doc cfg name =
        ⟨false, none, 0, [], "aggregation"⟩ := by
      simp [Spec.aggregationResult, hs]
    rw [h]
    norm_num
  | some c =>
    cases h1 : Src.find_exact_bounds doc c.1 with
    | none =>
      have h : Spec.aggregationResult doc cfg name =
          ⟨false, none, 0, [], "aggregation"⟩ := by
        simp [Spec.aggregationResult, hs, h1]
      rw [h]
      norm_num
    | some b1 =>
      cases h2 : Src.find_exact_bounds doc c.2 with
      | none =>
        have h : Spec.aggregationResult doc cfg name =
            ⟨false, none, 0, [], "aggregation"⟩ := by
          simp [Spec.aggregationResult, hs, h1, h2]
        rw [h]
        norm_num
      | some b2 =>
        by_cases hprox : b1.page = b2.page ∧ |b2.y - b1.y| ≤ cfg.proximityBound
        · have h : Spec.aggregationResult doc cfg name =
              ⟨true, some (Spec.mergeBounds b1 b2),
                ((1 + 1) / 2) * cfg.aggregationPenalty,
                [⟨c.1, some b1⟩, ⟨c.2, some b2⟩], "aggregation"⟩ := by
            simp [Spec.aggregationResult, hs, h1, h2, hprox]
          rw [h]
          have hone : ((1 + 1) / 2 : ℚ) * cfg.aggregationPenalty =
              cfg.aggregationPenalty := by norm_num
          show 0 ≤ ((1 + 1) / 2 : ℚ) * cfg.aggregationPenalty ∧
            ((1 + 1) / 2 : ℚ) * cfg.aggregationPenalty ≤ 1
          rw [hone]
          exact ⟨ha0, ha1⟩
        · have h : Spec.aggregationResult doc cfg name =
              ⟨false, none, 0, [], "aggregation"⟩ := by
            simp [Spec.aggregationResult, hs, h1, h2, hprox]
          rw [h]
          norm_num

/-- Token-overlap similarity lies in `[0, 1]`. -/
theorem similarity_bounds (a b : String) :
    0 ≤ Spec.similarity a b ∧ Spec.similarity a b ≤ 1 := by
  rw [Spec.similarity]
  constructor
  · positivity
  · rcases Nat.eq_zero_or_pos
        (max (Spec.tokensOf a).length (Spec.tokensOf b).length) with h0 | hpos
    · rw [h0]
      norm_num
    · rw [div_le_one (by exact_mod_cast hpos)]
      have hle : ((Spec.tokensOf a).filter
            (fun t => (Spec.tokensOf b).contains t)).length ≤
          (Spec.tokensOf a).length := List.length_filter_le _ _
      exact_mod_cast le_trans hle (le_max_left _ _)

/-- The fold of `pickBetter` only ever returns one of the fold's inputs or
the initial accumulator. -/
theorem foldl_pickBetter_prop {α : Type} (Q : α × ℚ → Prop) :
    ∀ (l : List (α × ℚ)) (acc : Option (α × ℚ)),
      (∀ x ∈ l, Q x) → (∀ b, acc = some b → Q b) →
      ∀ b, l.foldl Spec.pickBetter acc = some b → Q b := by
  intro l
  induction l with
  | nil => intro acc _ hacc b hb; exact hacc b (by simpa using hb)
  | cons x rest ih =>
    intro acc hl hacc b hb
    rw [List.foldl_cons] at hb
    refine ih _ (fun y hy => hl y (List.mem_cons_of_mem x hy)) ?_ b hb
    intro b0 hb0
    cases acc with
    | none =>
      rw [Spec.pickBetter] at hb0
      simp only [Option.some.injEq] at hb0
      rw [← hb0]
      exact hl x (List.mem_cons_self x rest)
    | some a0 =>
      rw [Spec.pickBetter] at hb0
      by_cases hlt : a0.2 < x.2
      · rw [if_pos hlt] at hb0
        simp only [Option.some.injEq] at hb0
        rw [← hb0]
        exact hl x (List.mem_cons_self x rest)
      · rw [if_neg hlt] at hb0
        simp only [Option.some.injEq] at hb0
        rw [← hb0]
        exact hacc a0 rfl

/-- The winning fuzzy candidate's score is a similarity value, hence in
`[0, 1]`. -/
theorem bestCandidate_score (doc : PDFDoc) (name : String)
    (b : (ℕ × Page × Span) × ℚ) (hb : Spec.bestCandidate doc name = some b) :
    0 ≤ b.2 ∧ b.2 ≤ 1 := by
  rw [Spec.bestCandidate] at hb
  refine foldl_pickBetter_prop (fun x => 0 ≤ x.2 ∧ x.2 ≤ 1) _ none ?_ ?_ b hb
  · intro x hx
    obtain ⟨c, -, rfl⟩ := List.mem_map.mp hx
    exact similarity_bounds name c.2.2.text
  · intro b0 hb0
    exact absurd hb0 (by simp)

/-- The fuzzy matcher's confidence lies in `[0, 1]` for a valid
configuration. -/
theorem fuzzyResult_conf (doc : PDFDoc) (cfg : Spec.Config) (name : String)
    (hv : cfg.Valid) :
    0 ≤ (Spec.fuzzyResult doc cfg name).confidence ∧
      (Spec.fuzzyResult doc cfg name).confidence ≤ 1 := by
  obtain ⟨-, -, hf0, hf1⟩ := hv
  cases hb : Spec.bestCandidate doc name with
  | none =>
    have h : Spec.fuzzyResult doc cfg name = ⟨false, none, 0, [], "fuzzy"⟩ := by
      simp [Spec.fuzzyResult, hb]
    rw [h]
    norm_num
  | some c =>
    obtain ⟨hs0, hs1⟩ := bestCandidate_score doc name c hb
    by_cases hcut : c.2 < cfg.fuzzyThreshold
    · have h : Spec.fuzzyResult doc cfg name =
          ⟨false, none, 0, [], "fuzzy"⟩ := by
        simp [Spec.fuzzyResult, hb, hcut]
      rw [h]
      norm_num
    · have h : Spec.fuzzyResult doc cfg name =
          ⟨true, some (Src.normalize_bounds c.1.2.2.bbox c.1.2.1 c.1.1),
            c.2 * cfg.fuzzyPenalty, [], "fuzzy"⟩ := by
        simp [Spec.fuzzyResult, hb, hcut]
      rw [h]
      exact ⟨mul_nonneg hs0 hf0, mul_le_one₀ hs1 hf0 hf1⟩

/-- The exact matcher's confidence is 0 or 1. -/
theorem exactResult_conf (doc : PDFDoc) (name : String) :
    0 ≤ (Spec.exactResult doc name).confidence ∧
      (Spec.exactResult doc name).confidence ≤ 1 := by
  cases hfe : Src.find_exact_bounds doc name with
  | none =>
    have h : Spec.exactResult doc name = ⟨false, none, 0, [], "exact"⟩ := by
      simp [Spec.exactResult, hfe]
    rw [h]
    norm_num
  | some b =>
    have h : Spec.exactResult doc name = ⟨true, some b, 1, [], "exact"⟩ := by
      simp [Spec.exactResult, hfe]
    rw [h]
    norm_num

/-- Every strategy's confidence lies in `[0, 1]` for a valid
configuration. -/
theorem runStrategy_conf (doc : PDFDoc) (cfg : Spec.Config) (name : String)
    (hv : cfg.Valid) (s : Spec.StratKind) :
    0 ≤ (Spec.runStrategy doc cfg name s).confidence ∧
      (Spec.runStrategy doc cfg name s).confidence ≤ 1 := by
  cases s with
  | partialK => exact partialResult_conf doc cfg name
  | aggregationK => exact aggregationResult_conf doc cfg name hv
  | fuzzyK => exact fuzzyResult_conf doc cfg name hv

/-- A successful chain result comes from one of the chain's strategies. -/
theorem firstSuccess_mem (doc : PDFDoc) (cfg : Spec.Config) (name : String) :
    ∀ l r, Spec.firstSuccess doc cfg name l = some r →
      ∃ s ∈ l, Spec.runStrategy doc cfg name s = r := by
  intro l
  induction l with
  | nil => intro r hr; exact absurd hr (by simp [Spec.firstSuccess])
  | cons s rest ih =>
    intro r hr
    rw [Spec.firstSuccess] at hr
    by_cases hs : (Spec.runStrategy doc cfg name s).success = true
    · rw [if_pos hs] at hr
      simp only [Option.some.injEq] at hr
      exact ⟨s, List.mem_cons_self s rest, hr⟩
    · rw [if_neg hs] at hr
      obtain ⟨s0, hs0, hr0⟩ := ih r hr
      exact ⟨s0, List.mem_cons_of_mem s hs0, hr0⟩

/-- The dispatcher's confidence lies in `[0, 1]` for a valid
configuration. -/
theorem computeMatch_conf (doc : PDFDoc) (cfg : Spec.Config)
    (name ty : String) (hv : cfg.Valid) :
    0 ≤ (Spec.computeMatch doc cfg name ty).confidence ∧
      (Spec.computeMatch doc cfg name ty).confidence ≤ 1 := by
  by_cases hs : (Spec.exactResult doc name).success = true
  · have h : Spec.computeMatch doc cfg name ty =
        { entity_name := name
          entity_type := ty
          match_strategy := (Spec.exactResult doc name).strategy_name
          confidence := (Spec.exactResult doc name).confidence
          bounds := (Spec.exactResult doc name).bounds
          component_matches := (Spec.exactResult doc name).components } := by
      simp [Spec.computeMatch, hs]
    rw [h]
    exact exactResult_conf doc name
  · cases hfs : Spec.firstSuccess doc cfg name (Spec.chainFor ty) with
    | none =>
      have h : Spec.computeMatch doc cfg name ty =
          { entity_name := name
            entity_type := ty
            match_strategy := "none"
            confidence := 0
            bounds := none
            component_matches := [] } := by
        simp [Spec.computeMatch, hs, hfs]
      rw [h]
      norm_num
    | some r =>
      have h : Spec.computeMatch doc cfg name ty =
          { entity_name := name
            entity_type := ty
            match_strategy := r.strategy_name
            confidence := r.confidence
            bounds := r.bounds
            component_matches := r.components } := by
        simp [Spec.computeMatch, hs, hfs]
      rw [h]
      obtain ⟨s, -, hr⟩ := firstSuccess_mem doc cfg name (Spec.chainFor ty) r hfs
      rw [← hr]
      exact runStrategy_conf doc cfg name hv s

/-- C5: for every entity name and type, the confidence of the
`MatchedEntity` the dispatcher returns (with a valid configuration and a
coherent cache) satisfies `0 ≤ confidence ≤ 1`. -/
theorem C5_confidence_in_unit_interval (doc : PDFDoc) (cfg : Spec.Config)
    (st : Spec.MatcherState) (name ty : String)
    (hv : cfg.Valid) (hwf : Spec.StateWf doc cfg st) :
    0 ≤ (Spec.match_entity doc cfg st name ty).1.confidence ∧
      (Spec.match_entity doc cfg st name ty).1.confidence ≤ 1 := by
  cases hlk : Spec.lookupCache st name ty with
  | some r =>
    have h1 : Spec.match_entity doc cfg st name ty = (r, st) := by
      rw [Spec.match_entity, hlk]
    rw [h1]
    show 0 ≤ r.confidence ∧ r.confidence ≤ 1
    rw [hwf name ty r hlk]
    exact computeMatch_conf doc cfg name ty hv
  | none =>
    have h1 : Spec.match_entity doc cfg st name ty =
        (Spec.computeMatch doc cfg name ty,
          ⟨((name, ty), Spec.computeMatch doc cfg name ty) :: st.cache⟩) := by
      rw [Spec.match_entity, hlk]
    rw [h1]
    exact computeMatch_conf doc cfg name ty hv

/-- C5 witness: the default configuration is valid, and on `docA` with a
fresh cache the entity ("Total Revenue", "KPI") — an exact hit — has its
confidence in `[0, 1]`. -/
theorem C5_confidence_in_unit_interval_witness :
    0 ≤ (Spec.match_entity docA Spec.defaultConfig Spec.initMatcherState
        "Total Revenue" "KPI").1.confidence ∧
      (Spec.match_entity docA Spec.defaultConfig Spec.initMatcherState
        "Total Revenue" "KPI").1.confidence ≤ 1 :=
  C5_confidence_in_unit_interval docA Spec.defaultConfig Spec.initMatcherState
    "Total Revenue" "KPI"
    (by norm_num [Spec.Config.Valid, Spec.defaultConfig])
    (by intro n t r h; simp [Spec.lookupCache, Spec.initMatcherState,
      List.lookup] at h)
